import Mathlib

/-!
Verification development for the MoviePilot-Plugins repository.

This file gives a shallow embedding of the reconciliation logic of the
plugins and proves properties of it:

- OrphanFilesCleaner (plugins.v2/orphanfilescleaner/__init__.py):
  collection of the active torrent file set, directory scan, orphan
  computation, file deletion and deepest-first empty-directory deletion.
- TransmissionCleaner (plugins.v2/transmissioncleaner/__init__.py):
  multi-root walk, built-in image/NFO and system-file exclusions,
  redundant-file collection and dry-run deletion.
- ManualLink (plugins.v2/manuallink/__init__.py): per-file hard-link /
  copy decision with size threshold and keyword exclusion.

Modelling conventions:
- Filesystem paths are modelled post-canonicalization.  The Python code
  canonicalizes with Path.resolve / os.path.normpath before every
  comparison; in the model a path is already a canonical list of
  components (for the OrphanFilesCleaner, whose comparisons are on
  component structure) or a canonical string (for the TransmissionCleaner
  and ManualLink, whose checks are string checks), so canonicalization is
  the identity.
- Python sets are modelled as lists; the claims under study are about
  membership, so multiplicity and iteration order are irrelevant, and the
  unspecified iteration order of a Python set is fixed to scan order.
- The external regular-expression engine (re.findall) is a parameter of
  the embedding; for literal patterns without metacharacters its
  behaviour is occurrence of the pattern as a contiguous substring, which
  the concrete instance reFindallLit provides.
- Individual unlink/rmdir/remove calls are modelled as succeeding: the
  model filesystem is the ground truth, so the missing_ok/try-except
  handling of the source never fires.
-/

namespace MPP

/-- leadSeg pat s is true when pat is a leading contiguous segment of s. -/
def leadSeg {α : Type} [DecidableEq α] : List α → List α → Bool
  | [], _ => true
  | _ :: _, [] => false
  | p :: ps, c :: cs => decide (p = c) && leadSeg ps cs

/-- occursIn pat s is true when pat occurs as a contiguous segment of s. -/
def occursIn {α : Type} [DecidableEq α] : List α → List α → Bool
  | pat, [] => leadSeg pat []
  | pat, c :: cs => leadSeg pat (c :: cs) || occursIn pat cs

/-- strLeads s pat is true when the string s starts with pat
(embeds Python str.startswith). -/
def strLeads (s pat : String) : Bool := leadSeg pat.data s.data

/-- strOccurs pat s is true when pat occurs as a substring of s
(embeds the Python operator "in" on strings). -/
def strOccurs (pat s : String) : Bool := occursIn pat.data s.data

/-- A canonical filesystem path, as a list of components. -/
abbrev FsPath := List String

/-- Kind of a filesystem entry. -/
inductive EntryKind
  | file
  | dir
  deriving DecidableEq, Repr

/-- A filesystem entry: a canonical path tagged file or directory. -/
structure FsEntry where
  path : FsPath
  kind : EntryKind
  deriving DecidableEq, Repr

/-- A model filesystem: the entries below the scanned download root. -/
abbrev Fs := List FsEntry

/-- A mutating filesystem operation performed by a run. -/
inductive FsOp
  | unlink (p : FsPath)
  | rmdir (p : FsPath)
  deriving DecidableEq, Repr

/-- Path p names a file of fs (embeds Path.is_file). -/
def isFileIn (fs : Fs) (p : FsPath) : Bool :=
  fs.any (fun e => decide (e.path = p ∧ e.kind = EntryKind.file))

/-- Path p names a directory of fs (embeds Path.is_dir). -/
def isDirIn (fs : Fs) (p : FsPath) : Bool :=
  fs.any (fun e => decide (e.path = p ∧ e.kind = EntryKind.dir))

/-- q is a direct child path of p. -/
def childPath (p q : FsPath) : Bool :=
  decide (q.length = p.length + 1) && leadSeg p q

/-- Directory p has no entry in fs (embeds not any(path.iterdir())). -/
def dirEmpty (fs : Fs) (p : FsPath) : Bool :=
  fs.all (fun e => !(childPath p e.path))

/-- Effect of one filesystem operation on the model filesystem. -/
def applyOp (fs : Fs) : FsOp → Fs
  | FsOp.unlink p => fs.filter (fun e => !(decide (e.path = p ∧ e.kind = EntryKind.file)))
  | FsOp.rmdir p => fs.filter (fun e => !(decide (e.path = p ∧ e.kind = EntryKind.dir)))

/-- Replay of a list of operations. -/
def applyOps (fs : Fs) (ops : List FsOp) : Fs := ops.foldl applyOp fs

/-- Configuration of OrphanFilesCleaner (the fields its scan logic reads). -/
structure CleanerConfig where
  download_dir : FsPath
  delete_empty_dir : Bool
  dry_run : Bool
  deriving DecidableEq, Repr

/-- The same configuration with dry_run switched off (a real run). -/
def realRun (cfg : CleanerConfig) : CleanerConfig :=
  ⟨cfg.download_dir, cfg.delete_empty_dir, false⟩

/-- One active torrent as the collector sees it: its resolved download
directory and the relative paths of its files. -/
structure TorrentFiles where
  download_dir : FsPath
  files : List FsPath
  deriving DecidableEq, Repr

/-- Embeds OrphanFilesCleaner._get_active_files.  The collector input is
either an error (connection failure or an error payload from
get_torrents, both raised and caught inside the method) or the torrent
list.  On error the source logs, posts a connection alert and returns
set(): the run continues with an empty active set. -/
def get_active_files (collect : Except String (List TorrentFiles)) : List FsPath :=
  match collect with
  | Except.error _ => []
  | Except.ok ts => ts.flatMap (fun t => t.files.map (fun f => t.download_dir ++ f))

/-- Embeds OrphanFilesCleaner._scan_files: every path below the download
directory (the model filesystem is exactly the scanned tree). -/
def scan_files (fs : Fs) : List FsPath := fs.map (fun e => e.path)

/-- Output of one processing phase of a run: the filesystem afterwards,
the mutating operations performed, the paths whose deletion attempt was
logged, and the paths appended to the deleted list. -/
structure PhaseOut where
  fs : Fs
  ops : List FsOp
  logged : List FsPath
  deleted : List FsPath
  deriving DecidableEq, Repr

/-- Embeds the file loop of OrphanFilesCleaner._scan_and_clean: each
orphan file is logged, and unless dry_run is set it is unlinked and
counted as deleted. -/
def processFiles (cfg : CleanerConfig) (fs : Fs) : List FsPath → PhaseOut
  | [] => ⟨fs, [], [], []⟩
  | p :: ps =>
    if cfg.dry_run then
      let r := processFiles cfg fs ps
      ⟨r.fs, r.ops, p :: r.logged, r.deleted⟩
    else
      let r := processFiles cfg (applyOp fs (FsOp.unlink p)) ps
      ⟨r.fs, FsOp.unlink p :: r.ops, p :: r.logged, p :: r.deleted⟩

/-- Embeds the directory loop of OrphanFilesCleaner._scan_and_clean: a
directory is considered only when delete_empty_dir is set and it is empty
at the moment of evaluation; then it is logged, and unless dry_run is set
it is removed and counted as deleted. -/
def processDirs (cfg : CleanerConfig) (fs : Fs) : List FsPath → PhaseOut
  | [] => ⟨fs, [], [], []⟩
  | p :: ps =>
    if cfg.delete_empty_dir && dirEmpty fs p then
      if cfg.dry_run then
        let r := processDirs cfg fs ps
        ⟨r.fs, r.ops, p :: r.logged, r.deleted⟩
      else
        let r := processDirs cfg (applyOp fs (FsOp.rmdir p)) ps
        ⟨r.fs, FsOp.rmdir p :: r.ops, p :: r.logged, p :: r.deleted⟩
    else
      processDirs cfg fs ps

/-- Stable insertion for the deepest-first directory order. -/
def insertByDepth (p : FsPath) : List FsPath → List FsPath
  | [] => [p]
  | q :: qs => if q.length < p.length then p :: q :: qs else q :: insertByDepth p qs

/-- Embeds dirs_to_delete.sort(key parts length, reverse): a stable sort
by path depth, descending. -/
def sortByDepthDesc : List FsPath → List FsPath
  | [] => []
  | p :: ps => insertByDepth p (sortByDepthDesc ps)

/-- Result of one OrphanFilesCleaner run. -/
structure RunResult where
  fs : Fs
  ops : List FsOp
  orphans : List FsPath
  logged_files : List FsPath
  logged_dirs : List FsPath
  deleted : List FsPath
  failed : Bool
  deriving DecidableEq, Repr

/-- Embeds OrphanFilesCleaner._scan_and_clean.  With no download
directory configured the run raises ValueError and only posts the failure
alert.  Otherwise it collects the active set (empty on collection error),
scans, computes orphans as the set difference, splits them into existing
files and directories, deletes files, then deletes empty directories
deepest first, and reports the orphan and deleted counts. -/
def scan_and_clean (cfg : CleanerConfig) (collect : Except String (List TorrentFiles))
    (fs : Fs) : RunResult :=
  if cfg.download_dir = [] then
    ⟨fs, [], [], [], [], [], true⟩
  else
    let active := get_active_files collect
    let all_files := scan_files fs
    let orphans := all_files.filter (fun p => !(decide (p ∈ active)))
    let files_to_delete := orphans.filter (fun p => isFileIn fs p)
    let dirs_to_delete := orphans.filter (fun p => isDirIn fs p)
    let fr := processFiles cfg fs files_to_delete
    let dr := processDirs cfg fr.fs (sortByDepthDesc dirs_to_delete)
    ⟨dr.fs, fr.ops ++ dr.ops, orphans, fr.logged, dr.logged,
      fr.deleted ++ dr.deleted, false⟩

/-- Configuration of TransmissionCleaner (the fields its task reads). -/
structure TCConfig where
  dry_run : Bool
  delete_images_nfo : Bool
  delete_system_files : Bool
  deriving DecidableEq, Repr

/-- The same TransmissionCleaner configuration with dry_run off. -/
def tcRealRun (c : TCConfig) : TCConfig :=
  ⟨false, c.delete_images_nfo, c.delete_system_files⟩

/-- One directory visited by os.walk under a download root: its full path
string and the names of the files directly inside it. -/
structure WalkDir where
  root : String
  files : List String
  deriving DecidableEq, Repr

/-- One configured download root of TransmissionCleaner: the configured
path string, whether os.path.isdir accepts it, and the walk of its tree
when it does. -/
structure DownloadRoot where
  path : String
  isdir : Bool
  walk : List WalkDir
  deriving DecidableEq, Repr

/-- Embeds os.path.normpath(os.path.join(root, file)) for a walk
directory path and a plain file name: both are already normalized, so the
result is the slash join. -/
def normJoin (root file : String) : String := root ++ "/" ++ file

/-- Splits a character list at its last dot, returning the part before
the dot and the part from the dot on. -/
def lastDotSplit : List Char → Option (List Char × List Char)
  | [] => none
  | c :: cs =>
    match lastDotSplit cs with
    | some (b, e) => some (c :: b, e)
    | none => if c = '.' then some ([], c :: cs) else none

/-- Embeds the extension part of os.path.splitext on a plain file name:
the suffix from the last dot, except that a name whose characters before
that dot are all dots has no extension. -/
def splitextExt (name : List Char) : List Char :=
  match lastDotSplit name with
  | none => []
  | some (b, e) => if b.any (fun c => c ≠ '.') then e else []

/-- Embeds os.path.splitext(file)[1].lower() for an ASCII file name. -/
def extLower (file : String) : List Char :=
  (splitextExt file.data).map Char.toLower

/-- The image/NFO extension list of TransmissionCleaner, as character
lists. -/
def imgExtsL : List (List Char) :=
  [".jpg".data, ".jpeg".data, ".png".data, ".gif".data, ".nfo".data, ".txt".data]

/-- Embeds the walk-directory skip of TransmissionCleaner._task: when
delete_system_files is off, a directory whose path contains the @eaDir
marker is skipped whole. -/
def tc_dir_skipped (cfg : TCConfig) (root : String) : Bool :=
  !cfg.delete_system_files && strOccurs "@eaDir" root

/-- Embeds the per-file body of the walk loop in
TransmissionCleaner._task: system-file names are skipped when
delete_system_files is off, image/NFO extensions are skipped when
delete_images_nfo is off, files in the active set are skipped, and any
remaining file path is emitted as redundant. -/
def tc_file_decision (cfg : TCConfig) (active : List String) (root file : String) :
    Option String :=
  let file_path := normJoin root file
  if !cfg.delete_system_files &&
      (strLeads file "SYNOINDEX_" || strLeads file "." || decide (file = "Thumbs.db")) then
    none
  else if !cfg.delete_images_nfo && decide (extLower file ∈ imgExtsL) then
    none
  else if decide (file_path ∈ active) then
    none
  else
    some file_path

/-- Redundant files contributed by one walk directory. -/
def tc_walk_dir (cfg : TCConfig) (active : List String) (wd : WalkDir) : List String :=
  if tc_dir_skipped cfg wd.root then []
  else wd.files.filterMap (tc_file_decision cfg active wd.root)

/-- Redundant files contributed by one valid download root. -/
def tc_root_files (cfg : TCConfig) (active : List String) (r : DownloadRoot) : List String :=
  r.walk.flatMap (tc_walk_dir cfg active)

/-- Embeds the redundant-file collection of TransmissionCleaner._task: a
root that is not a directory is skipped with a warning, every other root
is walked. -/
def tc_collect (cfg : TCConfig) (active : List String) (roots : List DownloadRoot) :
    List String :=
  roots.flatMap (fun r => if r.isdir then tc_root_files cfg active r else [])

/-- The roots TransmissionCleaner._task warns about and skips. -/
def tc_warned (roots : List DownloadRoot) : List DownloadRoot :=
  roots.filter (fun r => !r.isdir)

/-- Result of one TransmissionCleaner run. -/
structure TCResult where
  redundant : List String
  removed : List String
  warned : List DownloadRoot
  deriving DecidableEq, Repr

/-- Embeds TransmissionCleaner._task after the torrent query: collect
redundant files, then remove them unless dry_run is set. -/
def tc_task (cfg : TCConfig) (active : List String) (roots : List DownloadRoot) : TCResult :=
  let redundant := tc_collect cfg active roots
  ⟨redundant, if cfg.dry_run then [] else redundant, tc_warned roots⟩

/-- Embeds ManualLink._check_exclude: a path is excluded when some
non-empty keyword of the configured list matches the full path string
under the regular-expression engine (the matcher parameter).  The source
splits the raw keyword text at newlines and skips falsy (empty) keywords,
which the non-emptiness guard reproduces. -/
def check_exclude (matcher : String → String → Bool) (keywords : List String)
    (path_str : String) : Bool :=
  keywords.any (fun k => decide (k ≠ "") && matcher k path_str)

/-- Model of re.findall for a literal pattern without metacharacters: it
finds a match exactly when the pattern occurs as a contiguous substring,
case-sensitively. -/
def reFindallLit (pat s : String) : Bool := occursIn pat.data s.data

/-- Configuration of ManualLink: the minimum-size threshold in KB (0
meaning unset) and the parsed exclusion keyword list. -/
structure MLConfig where
  size : Nat
  exclude_keywords : List String
  deriving DecidableEq, Repr

/-- The source file of one ManualLink.link_file call: whether it exists,
its stat size in bytes, and its full path string. -/
structure SrcFile where
  src_exists : Bool
  st_size : Nat
  path_str : String
  deriving DecidableEq, Repr

/-- The operation ManualLink performs on a file. -/
inductive LinkAction
  | copy
  | link
  deriving DecidableEq, Repr

/-- Embeds ManualLink.link_file.  A missing source or an excluded path
returns failure without attempting anything.  Otherwise, with a positive
configured size, a file strictly smaller than size KB (size * 1024 bytes)
is copied and any other file is hard-linked; the SystemUtils result codes
of the two operations are inputs, code 0 meaning success.  The returned
pair is the (success, failure) counts, paired with the operation
attempted. -/
def link_file (cfg : MLConfig) (matcher : String → String → Bool) (src : SrcFile)
    (copy_code link_code : Int) : (Nat × Nat) × Option LinkAction :=
  if src.src_exists then
    if check_exclude matcher cfg.exclude_keywords src.path_str then ((0, 1), none)
    else
      let act := if 0 < cfg.size ∧ src.st_size < cfg.size * 1024 then LinkAction.copy
        else LinkAction.link
      let code := match act with
        | LinkAction.copy => copy_code
        | LinkAction.link => link_code
      if code = 0 then ((1, 0), some act) else ((0, 1), some act)
  else ((0, 1), none)

/-- Specification-side definition (spec section 4.3 step 2 and section
8): the orphan files are the scanned file paths outside the active set,
a pure set difference. -/
def spec_orphan_files (active : List FsPath) (scanned_files : List FsPath) : List FsPath :=
  scanned_files.filter (fun p => !(decide (p ∈ active)))

/-- Specification-side set difference on path strings, for the
TransmissionCleaner comparison. -/
def spec_orphan_strs (active : List String) (scanned_files : List String) : List String :=
  scanned_files.filter (fun p => !(decide (p ∈ active)))

/-- The file paths a valid TransmissionCleaner root contributes to the
scan, before any filtering. -/
def tc_scanned (roots : List DownloadRoot) : List String :=
  roots.flatMap (fun r =>
    if r.isdir then r.walk.flatMap (fun wd => wd.files.map (normJoin wd.root)) else [])

/-- Modelled from the spec: the reconciler's orphan-file computation with
a user exclusion list (spec section 4.3 step 2).  No single function
under src implements it with a configurable exclusion list: the set
difference is OrphanFilesCleaner._scan_and_clean and the exclusion
matching is ManualLink._check_exclude; this composes the two as the spec
describes. -/
def spec_reconcile_orphans (matcher : String → String → Bool) (exclusions : List String)
    (active : List String) (files : List String) : List String :=
  files.filter (fun f => !(decide (f ∈ active)) && !(check_exclude matcher exclusions f))

/-- The file paths of a scanned OrphanFilesCleaner tree. -/
def scanned_file_paths (fs : Fs) : List FsPath :=
  (scan_files fs).filter (fun p => isFileIn fs p)

/-- The built-in per-file exclusion predicate of TransmissionCleaner:
the disjunction of the system-file skip and the image/NFO skip of
_task, exactly as tc_file_decision tests them. -/
def tc_file_excluded (cfg : TCConfig) (file : String) : Bool :=
  (!cfg.delete_system_files &&
    (strLeads file "SYNOINDEX_" || strLeads file "." || decide (file = "Thumbs.db")))
  || (!cfg.delete_images_nfo && decide (extLower file ∈ imgExtsL))

/-- The full path string of a component list: a slash before every
component (the canonical absolute path of the components). -/
def joinComps : List (List Char) → List Char
  | [] => []
  | c :: cs => '/' :: (c ++ joinComps cs)

/-- Soundness predicate for an operation trace: replayed from fs, every
rmdir in the trace removes a directory that is empty at that moment. -/
def opsEmptyInv (fs : Fs) : List FsOp → Prop
  | [] => True
  | FsOp.unlink p :: rest => opsEmptyInv (applyOp fs (FsOp.unlink p)) rest
  | FsOp.rmdir p :: rest =>
      dirEmpty fs p = true ∧ opsEmptyInv (applyOp fs (FsOp.rmdir p)) rest

/-! Helper lemmas. -/

theorem bool_not_true {b : Bool} : (!b) = true ↔ b = false := by
  cases b <;> simp

theorem leadSeg_append_self {α : Type} [DecidableEq α] (l t : List α) :
    leadSeg l (l ++ t) = true := by
  induction l with
  | nil => rfl
  | cons a l ih => simp [leadSeg, ih]

theorem occursIn_of_leadSeg {α : Type} [DecidableEq α] {pat s : List α}
    (h : leadSeg pat s = true) : occursIn pat s = true := by
  cases s with
  | nil => simpa [occursIn] using h
  | cons c cs => simp [occursIn, h]

theorem occursIn_cons {α : Type} [DecidableEq α] {pat s : List α} (c : α)
    (h : occursIn pat s = true) : occursIn pat (c :: s) = true := by
  simp [occursIn, h]

theorem occursIn_append_left {α : Type} [DecidableEq α] {pat t : List α} (s : List α)
    (h : occursIn pat t = true) : occursIn pat (s ++ t) = true := by
  induction s with
  | nil => simpa using h
  | cons a s ih => exact occursIn_cons a ih

theorem occursIn_joinComps {comps : List (List Char)} {k : List Char}
    (h : k ∈ comps) : occursIn k (joinComps comps) = true := by
  induction comps with
  | nil => cases h
  | cons c cs ih =>
    rcases List.mem_cons.mp h with rfl | hm
    · exact occursIn_cons _ (occursIn_of_leadSeg (leadSeg_append_self k (joinComps cs)))
    · exact occursIn_cons _ (occursIn_append_left c (ih hm))

theorem processFiles_logged (cfg : CleanerConfig) (fs : Fs) (l : List FsPath) :
    (processFiles cfg fs l).logged = l := by
  induction l generalizing fs with
  | nil => rfl
  | cons p ps ih => cases h : cfg.dry_run <;> simp [processFiles, h, ih]

theorem processFiles_dry {cfg : CleanerConfig} (h : cfg.dry_run = true) (fs : Fs)
    (l : List FsPath) : processFiles cfg fs l = ⟨fs, [], l, []⟩ := by
  induction l generalizing fs with
  | nil => rfl
  | cons p ps ih => simp [processFiles, h, ih]

theorem processFiles_real {cfg : CleanerConfig} (h : cfg.dry_run = false) (fs : Fs)
    (l : List FsPath) :
    processFiles cfg fs l =
      ⟨applyOps fs (l.map FsOp.unlink), l.map FsOp.unlink, l, l⟩ := by
  induction l generalizing fs with
  | nil => rfl
  | cons p ps ih => simp [processFiles, h, ih, applyOps]

theorem processDirs_dry {cfg : CleanerConfig} (h : cfg.dry_run = true) (fs : Fs)
    (l : List FsPath) :
    (processDirs cfg fs l).fs = fs ∧ (processDirs cfg fs l).ops = [] ∧
      (processDirs cfg fs l).deleted = [] := by
  induction l generalizing fs with
  | nil => exact ⟨rfl, rfl, rfl⟩
  | cons p ps ih =>
    cases hc : (cfg.delete_empty_dir && dirEmpty fs p) with
    | true => simp [processDirs, hc, h, ih fs]
    | false => simp [processDirs, hc, ih fs]

theorem processDirs_inv (cfg : CleanerConfig) (l : List FsPath) (fs : Fs) :
    opsEmptyInv fs (processDirs cfg fs l).ops := by
  induction l generalizing fs with
  | nil => trivial
  | cons p ps ih =>
    cases hc : (cfg.delete_empty_dir && dirEmpty fs p) with
    | false => simpa [processDirs, hc] using ih fs
    | true =>
      cases hd : cfg.dry_run with
      | true => simpa [processDirs, hc, hd] using ih fs
      | false =>
        have hc' : cfg.delete_empty_dir = true ∧ dirEmpty fs p = true := by simpa using hc
        have he : dirEmpty fs p = true := hc'.2
        simp only [processDirs, hc, hd, if_true, if_false, Bool.false_eq_true]
        exact ⟨he, ih (applyOp fs (FsOp.rmdir p))⟩

theorem processDirs_replay (cfg : CleanerConfig) (l : List FsPath) (fs : Fs) :
    (processDirs cfg fs l).fs = applyOps fs (processDirs cfg fs l).ops := by
  induction l generalizing fs with
  | nil => rfl
  | cons p ps ih =>
    cases hc : (cfg.delete_empty_dir && dirEmpty fs p) with
    | false => simpa [processDirs, hc] using ih fs
    | true =>
      cases hd : cfg.dry_run with
      | true => simpa [processDirs, hc, hd] using ih fs
      | false => simp [processDirs, hc, hd, applyOps, ih (applyOp fs (FsOp.rmdir p))]

theorem opsEmptyInv_unlinks (ps : List FsPath) (fs : Fs) (rest : List FsOp)
    (h : opsEmptyInv (applyOps fs (ps.map FsOp.unlink)) rest) :
    opsEmptyInv fs (ps.map FsOp.unlink ++ rest) := by
  induction ps generalizing fs with
  | nil => simpa [applyOps] using h
  | cons p ps ih =>
    simp only [List.map_cons, List.cons_append, opsEmptyInv]
    exact ih (applyOp fs (FsOp.unlink p)) (by simpa [applyOps] using h)

theorem mem_applyOp {e : FsEntry} {fs : Fs} {op : FsOp} (h : e ∈ applyOp fs op) :
    e ∈ fs := by
  cases op <;> exact (List.mem_filter.mp h).1

theorem mem_applyOps {e : FsEntry} {ops : List FsOp} {fs : Fs}
    (h : e ∈ applyOps fs ops) : e ∈ fs := by
  induction ops generalizing fs with
  | nil => simpa [applyOps] using h
  | cons op ops ih => exact mem_applyOp (ih (by simpa [applyOps] using h))

theorem dirEmpty_no_child {fs : Fs} {p : FsPath} (h : dirEmpty fs p = true)
    {e : FsEntry} (he : e ∈ fs) : childPath p e.path = false :=
  bool_not_true.mp (List.all_eq_true.mp h e he)

theorem opsInv_no_child {ops : List FsOp} {fs : Fs} {p : FsPath} {e : FsEntry}
    (hinv : opsEmptyInv fs ops) (hmem : FsOp.rmdir p ∈ ops)
    (he : e ∈ applyOps fs ops) : childPath p e.path = false := by
  induction ops generalizing fs with
  | nil => cases hmem
  | cons op rest ih =>
    have he' : e ∈ applyOps (applyOp fs op) rest := by simpa [applyOps] using he
    cases op with
    | unlink q =>
      have hmem' : FsOp.rmdir p ∈ rest := by
        rcases List.mem_cons.mp hmem with h | h
        · cases h
        · exact h
      exact ih (by simpa [opsEmptyInv] using hinv) hmem' he'
    | rmdir q =>
      have hinv' : dirEmpty fs q = true ∧ opsEmptyInv (applyOp fs (FsOp.rmdir q)) rest := by
        simpa [opsEmptyInv] using hinv
      rcases List.mem_cons.mp hmem with h | h
      · injection h with hq
        subst hq
        exact dirEmpty_no_child hinv'.1 (mem_applyOp (mem_applyOps he'))
      · exact ih hinv'.2 h he'

theorem applyOps_append (fs : Fs) (a b : List FsOp) :
    applyOps fs (a ++ b) = applyOps (applyOps fs a) b := by
  simp [applyOps]

theorem run_ops_inv (cfg : CleanerConfig) (c : Except String (List TorrentFiles))
    (fs : Fs) : opsEmptyInv fs (scan_and_clean cfg c fs).ops := by
  by_cases hdd : cfg.download_dir = []
  · simp [scan_and_clean, hdd, opsEmptyInv]
  · cases hd : cfg.dry_run with
    | true =>
      simp only [scan_and_clean, if_neg hdd]
      rw [processFiles_dry hd]
      simp only []
      rw [(processDirs_dry hd _ _).2.1]
      exact trivial
    | false =>
      simp only [scan_and_clean, if_neg hdd]
      rw [processFiles_real hd]
      exact opsEmptyInv_unlinks _ fs _ (processDirs_inv cfg _ _)

theorem run_replay (cfg : CleanerConfig) (c : Except String (List TorrentFiles))
    (fs : Fs) : (scan_and_clean cfg c fs).fs = applyOps fs (scan_and_clean cfg c fs).ops := by
  by_cases hdd : cfg.download_dir = []
  · simp [scan_and_clean, hdd, applyOps]
  · cases hd : cfg.dry_run with
    | true =>
      simp only [scan_and_clean, if_neg hdd]
      rw [processFiles_dry hd]
      simp only []
      rw [(processDirs_dry hd _ _).1, (processDirs_dry hd _ _).2.1]
      simp [applyOps]
    | false =>
      simp only [scan_and_clean, if_neg hdd]
      rw [processFiles_real hd]
      simp only []
      rw [applyOps_append]
      exact processDirs_replay cfg _ _

theorem mem_insertByDepth {q p : FsPath} {l : List FsPath}
    (h : q ∈ insertByDepth p l) : q = p ∨ q ∈ l := by
  induction l with
  | nil => simpa [insertByDepth] using h
  | cons a l ih =>
    by_cases hc : a.length < p.length
    · simpa [insertByDepth, hc, List.mem_cons] using h
    · rw [insertByDepth, if_neg hc] at h
      rcases List.mem_cons.mp h with rfl | h
      · exact Or.inr (List.mem_cons_self _ _)
      · rcases ih h with h | h
        · exact Or.inl h
        · exact Or.inr (List.mem_cons_of_mem _ h)

theorem pairwise_insertByDepth {p : FsPath} {l : List FsPath}
    (h : List.Pairwise (fun a b => b.length ≤ a.length) l) :
    List.Pairwise (fun a b => b.length ≤ a.length) (insertByDepth p l) := by
  induction l with
  | nil => simp [insertByDepth]
  | cons a l ih =>
    rcases List.pairwise_cons.mp h with ⟨ha, hl⟩
    by_cases hc : a.length < p.length
    · rw [insertByDepth, if_pos hc]
      refine List.pairwise_cons.mpr ⟨?_, h⟩
      intro x hx
      rcases List.mem_cons.mp hx with rfl | hx
      · exact Nat.le_of_lt hc
      · exact Nat.le_trans (ha x hx) (Nat.le_of_lt hc)
    · rw [insertByDepth, if_neg hc]
      refine List.pairwise_cons.mpr ⟨?_, ih hl⟩
      intro x hx
      rcases mem_insertByDepth hx with rfl | hx
      · exact Nat.le_of_not_lt hc
      · exact ha x hx

theorem sortByDepthDesc_pairwise (l : List FsPath) :
    List.Pairwise (fun a b => b.length ≤ a.length) (sortByDepthDesc l) := by
  induction l with
  | nil => simp [sortByDepthDesc]
  | cons p ps ih => exact pairwise_insertByDepth ih

theorem processDirs_dry_fs {cfg : CleanerConfig} (h : cfg.dry_run = true) (fs : Fs)
    (l : List FsPath) : (processDirs cfg fs l).fs = fs := (processDirs_dry h fs l).1

theorem processDirs_dry_ops {cfg : CleanerConfig} (h : cfg.dry_run = true) (fs : Fs)
    (l : List FsPath) : (processDirs cfg fs l).ops = [] := (processDirs_dry h fs l).2.1

theorem processDirs_dry_deleted {cfg : CleanerConfig} (h : cfg.dry_run = true) (fs : Fs)
    (l : List FsPath) : (processDirs cfg fs l).deleted = [] := (processDirs_dry h fs l).2.2

theorem scan_orphans_real (cfg : CleanerConfig) (c : Except String (List TorrentFiles))
    (fs : Fs) :
    (scan_and_clean (realRun cfg) c fs).orphans = (scan_and_clean cfg c fs).orphans := by
  by_cases hdd : cfg.download_dir = [] <;> simp [scan_and_clean, realRun, hdd]

theorem scan_logged_real (cfg : CleanerConfig) (c : Except String (List TorrentFiles))
    (fs : Fs) :
    (scan_and_clean (realRun cfg) c fs).logged_files
      = (scan_and_clean cfg c fs).logged_files := by
  by_cases hdd : cfg.download_dir = [] <;>
    simp [scan_and_clean, realRun, hdd, processFiles_logged]

theorem tc_collect_real (tcfg : TCConfig) (active : List String)
    (roots : List DownloadRoot) :
    tc_collect (tcRealRun tcfg) active roots = tc_collect tcfg active roots := rfl

theorem ite3_none_eq (j : String) (a b c : Bool) :
    (if a then (none : Option String) else if b then none else if c then none else some j)
      = if !(a || b) && !c then some j else none := by
  cases a <;> cases b <;> cases c <;> rfl

theorem tc_decision_iff_form (cfg : TCConfig) (active : List String) (root file : String) :
    tc_file_decision cfg active root file
      = if !(tc_file_excluded cfg file) && !(decide (normJoin root file ∈ active)) then
          some (normJoin root file)
        else none := by
  simp only [tc_file_decision, tc_file_excluded]
  exact ite3_none_eq (normJoin root file) _ _ _

theorem tc_decision_no_excl (d : Bool) (active : List String) (root file : String) :
    tc_file_decision ⟨d, true, true⟩ active root file
      = if decide (normJoin root file ∈ active) then none else some (normJoin root file) := by
  simp [tc_file_decision]

theorem filterMap_if_not_mem (j : String → String) (A : List String)
    (files : List String) :
    files.filterMap (fun f => if decide (j f ∈ A) then none else some (j f))
      = (files.map j).filter (fun p => !(decide (p ∈ A))) := by
  induction files with
  | nil => rfl
  | cons f fs ih => by_cases h : j f ∈ A <;> simp [h] <;> simpa using ih

theorem tc_walk_no_excl (d : Bool) (active : List String) (wd : WalkDir) :
    tc_walk_dir ⟨d, true, true⟩ active wd
      = spec_orphan_strs active (wd.files.map (normJoin wd.root)) := by
  have hskip : tc_dir_skipped ⟨d, true, true⟩ wd.root = false := by
    simp [tc_dir_skipped]
  rw [tc_walk_dir, hskip]
  have hdec : tc_file_decision ⟨d, true, true⟩ active wd.root
      = fun f => if decide (normJoin wd.root f ∈ active) then none
          else some (normJoin wd.root f) :=
    funext (fun f => tc_decision_no_excl d active wd.root f)
  simp only [Bool.false_eq_true, if_false, hdec]
  exact filterMap_if_not_mem (normJoin wd.root) active wd.files

theorem tc_collect_no_excl (d : Bool) (active : List String) (roots : List DownloadRoot) :
    tc_collect ⟨d, true, true⟩ active roots = spec_orphan_strs active (tc_scanned roots) := by
  induction roots with
  | nil => rfl
  | cons r rs ih =>
    have hroot : (if r.isdir then tc_root_files ⟨d, true, true⟩ active r else [])
        = spec_orphan_strs active
            (if r.isdir then r.walk.flatMap (fun wd => wd.files.map (normJoin wd.root))
              else []) := by
      cases hr : r.isdir with
      | false => rfl
      | true =>
        simp only [if_true]
        rw [tc_root_files]
        induction r.walk with
        | nil => rfl
        | cons wd ws ihw =>
          simp only [List.flatMap_cons]
          rw [ihw, tc_walk_no_excl]
          simp [spec_orphan_strs, List.filter_append]
    simp only [tc_collect, tc_scanned, List.flatMap_cons] at *
    rw [ih, hroot]
    simp [spec_orphan_strs, List.filter_append]

/-! Claim theorems. -/

/-- C1: the claim states that a total active-set collection failure
aborts the run before any filesystem mutation, with zero unlink, rmdir
or remove operations.  The code does the opposite: on a collection error
OrphanFilesCleaner._get_active_files returns an empty set after posting
the alert, _scan_and_clean then proceeds, every scanned path becomes an
orphan, and with dry_run off the files are deleted.  This theorem
evaluates the embedded run at the failing input: collection raises a
connection error, the download tree holds one file, dry_run is off, and
the run unlinks and deletes that file. -/
theorem c1_connection_error_run_deletes_files :
    (scan_and_clean ⟨["downloads"], true, false⟩ (Except.error "ConnectionError")
        [⟨["downloads", "a.mkv"], EntryKind.file⟩]).ops
      = [FsOp.unlink ["downloads", "a.mkv"]]
    ∧ (scan_and_clean ⟨["downloads"], true, false⟩ (Except.error "ConnectionError")
        [⟨["downloads", "a.mkv"], EntryKind.file⟩]).deleted
      = [["downloads", "a.mkv"]] := by
  decide

/-- C2 counterexample: the claim states that in dry-run mode every
action a real run would perform is logged and counted as a would-be
action.  At this input the real run unlinks d/sub/f.mkv and then removes
the emptied directory d/sub, but the dry run, which evaluates directory
emptiness against the unmutated filesystem, neither performs nor logs
nor counts any directory deletion: the would-be rmdir of d/sub is
missing from the dry run's log and counts, refuting the claim as
stated. -/
theorem c2_dry_run_missing_would_be_rmdir :
    FsOp.rmdir ["d", "sub"] ∈
      (scan_and_clean ⟨["d"], true, false⟩ (Except.ok [])
        [⟨["d", "sub"], EntryKind.dir⟩, ⟨["d", "sub", "f.mkv"], EntryKind.file⟩]).ops
    ∧ (scan_and_clean ⟨["d"], true, true⟩ (Except.ok [])
        [⟨["d", "sub"], EntryKind.dir⟩, ⟨["d", "sub", "f.mkv"], EntryKind.file⟩]).ops = []
    ∧ (scan_and_clean ⟨["d"], true, true⟩ (Except.ok [])
        [⟨["d", "sub"], EntryKind.dir⟩,
          ⟨["d", "sub", "f.mkv"], EntryKind.file⟩]).logged_dirs = []
    ∧ (scan_and_clean ⟨["d"], true, true⟩ (Except.ok [])
        [⟨["d", "sub"], EntryKind.dir⟩,
          ⟨["d", "sub", "f.mkv"], EntryKind.file⟩]).deleted = [] := by
  decide

/-- C2 amended: a dry run performs no filesystem mutation whatsoever (no
unlink, rmdir or remove; the filesystem is unchanged and the deleted
count is zero, in both OrphanFilesCleaner and TransmissionCleaner), and
it computes the orphan set and the per-file would-be deletions exactly
as a real run would; but directory emptiness is evaluated against the
unmutated filesystem, so a directory that would only become empty after
the file removals of a real run is not logged or counted as a would-be
deletion. -/
theorem c2_dry_run_no_mutation_amended (cfg : CleanerConfig)
    (c : Except String (List TorrentFiles)) (fs : Fs) (tcfg : TCConfig)
    (active : List String) (roots : List DownloadRoot)
    (hd : cfg.dry_run = true) (htd : tcfg.dry_run = true) :
    (scan_and_clean cfg c fs).ops = []
    ∧ (scan_and_clean cfg c fs).fs = fs
    ∧ (scan_and_clean cfg c fs).deleted = []
    ∧ (scan_and_clean cfg c fs).orphans = (scan_and_clean (realRun cfg) c fs).orphans
    ∧ (scan_and_clean cfg c fs).logged_files
        = (scan_and_clean (realRun cfg) c fs).logged_files
    ∧ (tc_task tcfg active roots).removed = []
    ∧ (tc_task tcfg active roots).redundant
        = (tc_task (tcRealRun tcfg) active roots).redundant := by
  refine ⟨?_, ?_, ?_, (scan_orphans_real cfg c fs).symm, (scan_logged_real cfg c fs).symm,
    ?_, ?_⟩
  · by_cases hdd : cfg.download_dir = []
    · simp [scan_and_clean, hdd]
    · have hdo := processDirs_dry_ops hd
      simp [scan_and_clean, hdd, processFiles_dry hd, hdo]
  · by_cases hdd : cfg.download_dir = []
    · simp [scan_and_clean, hdd]
    · have hdf := processDirs_dry_fs hd
      simp [scan_and_clean, hdd, processFiles_dry hd, hdf]
  · by_cases hdd : cfg.download_dir = []
    · simp [scan_and_clean, hdd]
    · have hdd' := processDirs_dry_deleted hd
      simp [scan_and_clean, hdd, processFiles_dry hd, hdd']
  · simp [tc_task, htd]
  · simp [tc_task, tc_collect_real]

/-- Witness for the amended C2 at a concrete dry run: no operation is
performed. -/
theorem c2_dry_run_no_mutation_amended_witness :
    (scan_and_clean ⟨["d"], true, true⟩ (Except.ok [])
      [⟨["d", "sub"], EntryKind.dir⟩, ⟨["d", "sub", "f.mkv"], EntryKind.file⟩]).ops = [] :=
  (c2_dry_run_no_mutation_amended ⟨["d"], true, true⟩ (Except.ok [])
    [⟨["d", "sub"], EntryKind.dir⟩, ⟨["d", "sub", "f.mkv"], EntryKind.file⟩]
    ⟨true, false, false⟩ [] [] rfl rfl).1

/-- C3: the computed orphan-file set is the pure set difference of the
scanned files and the active set on canonical paths, restricted to files
matching no exclusion.  First conjunct: the files an OrphanFilesCleaner
run processes for deletion are exactly the scanned file paths outside
the active set (that plugin has no exclusion list).  Second conjunct:
with both TransmissionCleaner exclusion toggles allowing everything, the
redundant files are exactly the scanned file paths outside the active
set.  Third conjunct: the general per-file decision of
TransmissionCleaner emits a file exactly when it matches no built-in
exclusion and its canonical path is outside the active set. -/
theorem c3_orphan_set_difference (cfg : CleanerConfig)
    (c : Except String (List TorrentFiles)) (fs : Fs) (d : Bool)
    (active : List String) (roots : List DownloadRoot) (tcfg : TCConfig)
    (root file : String) (hdd : cfg.download_dir ≠ []) :
    (scan_and_clean cfg c fs).logged_files
        = spec_orphan_files (get_active_files c) (scanned_file_paths fs)
    ∧ tc_collect ⟨d, true, true⟩ active roots = spec_orphan_strs active (tc_scanned roots)
    ∧ tc_file_decision tcfg active root file
        = if !(tc_file_excluded tcfg file) && !(decide (normJoin root file ∈ active)) then
            some (normJoin root file)
          else none := by
  refine ⟨?_, tc_collect_no_excl d active roots, tc_decision_iff_form tcfg active root file⟩
  simp only [scan_and_clean, if_neg hdd, processFiles_logged, spec_orphan_files,
    scanned_file_paths]
  rw [List.filter_filter, List.filter_filter]
  exact List.filter_congr (fun p _ => Bool.and_comm _ _)

/-- Witness for C3 at a concrete run: with active file d/a.mkv and scan
holding d/a.mkv and d/b.nfo, the processed files equal the pure set
difference. -/
theorem c3_orphan_set_difference_witness :
    (scan_and_clean ⟨["d"], true, true⟩ (Except.ok [⟨["d"], [["a.mkv"]]⟩])
        [⟨["d", "a.mkv"], EntryKind.file⟩, ⟨["d", "b.nfo"], EntryKind.file⟩]).logged_files
      = spec_orphan_files (get_active_files (Except.ok [⟨["d"], [["a.mkv"]]⟩]))
          (scanned_file_paths
            [⟨["d", "a.mkv"], EntryKind.file⟩, ⟨["d", "b.nfo"], EntryKind.file⟩]) :=
  (c3_orphan_set_difference ⟨["d"], true, true⟩ (Except.ok [⟨["d"], [["a.mkv"]]⟩])
    [⟨["d", "a.mkv"], EntryKind.file⟩, ⟨["d", "b.nfo"], EntryKind.file⟩]
    true [] [] ⟨true, true, true⟩ "" "" (by decide)).1

/-- C4: orphan directories are evaluated in path-depth descending order
(the embedded sort is pairwise nonincreasing in depth), every rmdir an
OrphanFilesCleaner run performs removes a directory that is empty at the
moment of its evaluation (the operation trace satisfies the emptiness
invariant), and consequently a directory with a surviving child entry is
never deleted in that run. -/
theorem c4_dirs_deepest_first_and_empty_only (cfg : CleanerConfig)
    (c : Except String (List TorrentFiles)) (fs : Fs) (dirs : List FsPath) :
    List.Pairwise (fun a b => b.length ≤ a.length) (sortByDepthDesc dirs)
    ∧ opsEmptyInv fs (scan_and_clean cfg c fs).ops
    ∧ (∀ (p : FsPath) (e : FsEntry), FsOp.rmdir p ∈ (scan_and_clean cfg c fs).ops →
        e ∈ (scan_and_clean cfg c fs).fs → childPath p e.path = false) :=
  ⟨sortByDepthDesc_pairwise dirs, run_ops_inv cfg c fs,
    fun _ _ hmem he =>
      opsInv_no_child (run_ops_inv cfg c fs) hmem (run_replay cfg c fs ▸ he)⟩

/-- Witness for C4 at a concrete run: the active set holds d/b/x, the
tree holds directories d/a and d/b and the file d/b/x; the run removes
the empty orphan directory d/a and keeps d/b, and the surviving entry
d/b/x is indeed no child of the removed directory. -/
theorem c4_dirs_deepest_first_and_empty_only_witness :
    childPath ["d", "a"] ["d", "b", "x"] = false :=
  (c4_dirs_deepest_first_and_empty_only ⟨["d"], true, false⟩
      (Except.ok [⟨["d"], [["b", "x"]]⟩])
      [⟨["d", "a"], EntryKind.dir⟩, ⟨["d", "b"], EntryKind.dir⟩,
        ⟨["d", "b", "x"], EntryKind.file⟩] []).2.2
    ["d", "a"] ⟨["d", "b", "x"], EntryKind.file⟩ (by decide) (by decide)

/-- C5: under the link disposition with a configured positive
minimum-size threshold (size KB, that is T = size * 1024 bytes), an
existing, non-excluded file strictly smaller than T is copied, and a
file of size T or larger is hard-linked: the boundary is exclusive
below T. -/
theorem c5_size_threshold_boundary (cfg : MLConfig) (m : String → String → Bool)
    (src : SrcFile) (cc lc : Int) (hex : src.src_exists = true)
    (hnx : check_exclude m cfg.exclude_keywords src.path_str = false)
    (hsz : 0 < cfg.size) :
    (src.st_size < cfg.size * 1024 →
      (link_file cfg m src cc lc).2 = some LinkAction.copy)
    ∧ (cfg.size * 1024 ≤ src.st_size →
      (link_file cfg m src cc lc).2 = some LinkAction.link) := by
  constructor
  · intro hlt
    by_cases hcode : cc = 0 <;> simp [link_file, hex, hnx, hsz, hlt, hcode]
  · intro hge
    have hnlt : ¬ src.st_size < cfg.size * 1024 := Nat.not_lt.mpr hge
    by_cases hcode : lc = 0 <;> simp [link_file, hex, hnx, hnlt, hcode]

/-- Witness for C5 at threshold 2 KB (2048 bytes): a file of 2047 bytes
is copied, files of 2048 and 2049 bytes are hard-linked. -/
theorem c5_size_threshold_boundary_witness :
    (link_file ⟨2, []⟩ reFindallLit ⟨true, 2047, "/s/x.mkv"⟩ 0 0).2 = some LinkAction.copy
    ∧ (link_file ⟨2, []⟩ reFindallLit ⟨true, 2048, "/s/x.mkv"⟩ 0 0).2
        = some LinkAction.link
    ∧ (link_file ⟨2, []⟩ reFindallLit ⟨true, 2049, "/s/x.mkv"⟩ 0 0).2
        = some LinkAction.link :=
  ⟨(c5_size_threshold_boundary ⟨2, []⟩ reFindallLit ⟨true, 2047, "/s/x.mkv"⟩ 0 0 rfl
      (by decide) (by decide)).1 (by decide),
    (c5_size_threshold_boundary ⟨2, []⟩ reFindallLit ⟨true, 2048, "/s/x.mkv"⟩ 0 0 rfl
      (by decide) (by decide)).2 (by decide),
    (c5_size_threshold_boundary ⟨2, []⟩ reFindallLit ⟨true, 2049, "/s/x.mkv"⟩ 0 0 rfl
      (by decide) (by decide)).2 (by decide)⟩

/-- C6: exclusion is monotone: for every matcher, active set and file
list, every file in the orphan set computed with the exclusion list
extended by one more pattern is also in the orphan set computed with the
original list — adding a pattern can only shrink the orphan set. -/
theorem c6_exclusion_monotone (m : String → String → Bool) (E : List String)
    (pat : String) (A files : List String) (f : String)
    (h : f ∈ spec_reconcile_orphans m (E ++ [pat]) A files) :
    f ∈ spec_reconcile_orphans m E A files := by
  rcases List.mem_filter.mp h with ⟨hf, hcond⟩
  have h1 : (!(decide (f ∈ A))) = true ∧ (!(check_exclude m (E ++ [pat]) f)) = true := by
    simpa using hcond
  have hall : check_exclude m (E ++ [pat]) f = false := bool_not_true.mp h1.2
  have hsplit : (E.any (fun k => decide (k ≠ "") && m k f)
      || [pat].any (fun k => decide (k ≠ "") && m k f)) = false := by
    simpa [check_exclude, List.any_append] using hall
  have hE : check_exclude m E f = false := by
    cases hEa : E.any (fun k => decide (k ≠ "") && m k f) with
    | false => simpa [check_exclude] using hEa
    | true => rw [hEa] at hsplit; simp at hsplit
  refine List.mem_filter.mpr ⟨hf, ?_⟩
  simp [h1.1, hE]

/-- Witness for C6: a file surviving the extended exclusion list
survives the original one. -/
theorem c6_exclusion_monotone_witness :
    "/mov/f.mkv" ∈ spec_reconcile_orphans reFindallLit ["zzz"] [] ["/mov/f.mkv"] :=
  c6_exclusion_monotone reFindallLit ["zzz"] "abc" [] ["/mov/f.mkv"] "/mov/f.mkv"
    (by decide)

/-- C7: a path is excluded exactly when at least one non-empty exclusion
pattern matches the full path string under the regular-expression
matcher (first conjunct); with the literal-pattern model of re.findall
(substring occurrence), a keyword equal to any ancestor directory
component of a path matches the full path string and therefore excludes
the file (second conjunct); and matching is case-sensitive: an
upper-case keyword does not exclude a lower-case path (third
conjunct). -/
theorem c7_exclude_characterization :
    (∀ (m : String → String → Bool) (kws : List String) (s : String),
      check_exclude m kws s = true ↔ ∃ k, k ∈ kws ∧ k ≠ "" ∧ m k s = true)
    ∧ (∀ (kws : List String) (comps : List (List Char)) (k : String),
      k ∈ kws → k ≠ "" → k.data ∈ comps →
      check_exclude reFindallLit kws (String.mk (joinComps comps)) = true)
    ∧ check_exclude reFindallLit ["ABC"] "/abc/Movie.mkv" = false := by
  refine ⟨?_, ?_, by decide⟩
  · intro m kws s
    simp [check_exclude, List.any_eq_true]
  · intro kws comps k hk hne hmem
    show kws.any _ = true
    refine List.any_eq_true.mpr ⟨k, hk, ?_⟩
    have hocc : reFindallLit k (String.mk (joinComps comps)) = true :=
      occursIn_joinComps hmem
    simp [hne, hocc]

/-- Witness for C7: the keyword Sample equals an ancestor directory
component of /downloads/Sample/x.mkv and excludes the file. -/
theorem c7_exclude_characterization_witness :
    check_exclude reFindallLit ["Sample"]
      (String.mk (joinComps ["downloads".data, "Sample".data, "x.mkv".data])) = true :=
  c7_exclude_characterization.2.1 ["Sample"]
    ["downloads".data, "Sample".data, "x.mkv".data] "Sample"
    (by decide) (by decide) (by decide)

/-- C8: in a multi-root TransmissionCleaner configuration, a root that
is not an existing directory contributes nothing and does not abort the
rest (dropping it leaves the collection unchanged), the collection
equals the concatenation of the per-root collections over the valid
roots, and a bad root is recorded among the warned-and-skipped roots. -/
theorem c8_bad_root_skipped (cfg : TCConfig) (active : List String)
    (r : DownloadRoot) (roots : List DownloadRoot) :
    (r.isdir = false → tc_collect cfg active (r :: roots) = tc_collect cfg active roots)
    ∧ tc_collect cfg active roots
        = (roots.filter (fun x => x.isdir)).flatMap (tc_root_files cfg active)
    ∧ (r.isdir = false → r ∈ tc_warned (r :: roots)) := by
  refine ⟨fun h => ?_, ?_, fun h => ?_⟩
  · simp [tc_collect, h]
  · induction roots with
    | nil => rfl
    | cons a rs ih =>
      simp only [tc_collect] at ih ⊢
      cases ha : a.isdir <;> simp [ha, ih]
  · simp [tc_warned, h]

/-- Witness for C8: a missing root before a valid one leaves the
collection over the valid one unchanged. -/
theorem c8_bad_root_skipped_witness :
    tc_collect ⟨true, false, false⟩ []
        [⟨"/bad", false, []⟩, ⟨"/data", true, [⟨"/data", ["a.mkv"]⟩]⟩]
      = tc_collect ⟨true, false, false⟩ [] [⟨"/data", true, [⟨"/data", ["a.mkv"]⟩]⟩] :=
  (c8_bad_root_skipped ⟨true, false, false⟩ [] ⟨"/bad", false, []⟩
    [⟨"/data", true, [⟨"/data", ["a.mkv"]⟩]⟩]).1 rfl

/-- C9: every ManualLink.link_file call returns success and failure
counts summing to one, and whenever the source is missing or the path
matches an exclusion keyword the result is the failure pair with no
copy or link attempted. -/
theorem c9_link_file_counts (cfg : MLConfig) (m : String → String → Bool)
    (src : SrcFile) (cc lc : Int) :
    ((link_file cfg m src cc lc).1.1 + (link_file cfg m src cc lc).1.2 = 1)
    ∧ ((src.src_exists = false ∨ check_exclude m cfg.exclude_keywords src.path_str = true) →
        link_file cfg m src cc lc = ((0, 1), none)) := by
  constructor
  · cases hex : src.src_exists with
    | false => simp [link_file, hex]
    | true =>
      cases hx : check_exclude m cfg.exclude_keywords src.path_str with
      | true => simp [link_file, hex, hx]
      | false =>
        by_cases hP : 0 < cfg.size ∧ src.st_size < cfg.size * 1024
        · by_cases hcode : cc = 0 <;> simp [link_file, hex, hx, hP, hcode]
        · by_cases hcode : lc = 0 <;> simp [link_file, hex, hx, hP, hcode]
  · intro h
    rcases h with h | h
    · simp [link_file, h]
    · cases hex : src.src_exists with
      | false => simp [link_file, hex]
      | true => simp [link_file, hex, h]

/-- Witness for C9: a source matching an exclusion keyword fails with no
operation attempted, whatever the external result codes would be. -/
theorem c9_link_file_counts_witness :
    link_file ⟨0, ["x"]⟩ reFindallLit ⟨true, 5, "/x/f"⟩ 3 7 = ((0, 1), none) :=
  (c9_link_file_counts ⟨0, ["x"]⟩ reFindallLit ⟨true, 5, "/x/f"⟩ 3 7).2
    (Or.inr (by decide))

/-- C10: with delete_images_nfo off, a file whose extension lower-cases
to .jpg, .jpeg, .png, .gif, .nfo or .txt is never emitted as redundant;
with delete_system_files off, a file starting with SYNOINDEX_ or a dot,
or named Thumbs.db, is never emitted, and a walk directory whose path
contains the @eaDir marker contributes nothing — all regardless of the
active set. -/
theorem c10_builtin_exclusions (cfg : TCConfig) (active : List String)
    (root file : String) (files : List String) :
    (cfg.delete_images_nfo = false → extLower file ∈ imgExtsL →
      tc_file_decision cfg active root file = none)
    ∧ (cfg.delete_system_files = false →
      (strLeads file "SYNOINDEX_" = true ∨ strLeads file "." = true ∨ file = "Thumbs.db") →
      tc_file_decision cfg active root file = none)
    ∧ (cfg.delete_system_files = false → strOccurs "@eaDir" root = true →
      tc_walk_dir cfg active ⟨root, files⟩ = []) := by
  refine ⟨fun hi he => ?_, fun hs hf => ?_, fun hs ho => ?_⟩
  · by_cases h1 : (!cfg.delete_system_files &&
        (strLeads file "SYNOINDEX_" || strLeads file "." || decide (file = "Thumbs.db")))
        = true
    · simp [tc_file_decision, h1]
    · simp [tc_file_decision, h1, hi, he]
  · have hcond : (strLeads file "SYNOINDEX_" || strLeads file "."
        || decide (file = "Thumbs.db")) = true := by
      rcases hf with h | h | h <;> simp [h]
    simp [tc_file_decision, hs, hcond]
  · simp [tc_walk_dir, tc_dir_skipped, hs, ho]

/-- Witness for C10: with the image/NFO toggle off, an NFO file in the
walk is not emitted as redundant even though it is outside the active
set. -/
theorem c10_builtin_exclusions_witness :
    tc_file_decision ⟨true, false, false⟩ [] "/data" "b.NFO" = none :=
  (c10_builtin_exclusions ⟨true, false, false⟩ [] "/data" "b.NFO" []).1 rfl (by decide)

end MPP
